import Mathlib

set_option maxHeartbeats 1000000

/- Verification of the embedding-and-deduplication core of tb-email-collator.

   Shallow embedding of:
     - src/modules/deduplication.js  (Deduplicator: deduplicate, cosineSimilarity)
     - src/modules/embeddings.js     (EmbeddingService: constructor, batch loop,
                                      getEmbedding dispatch, provider adapters)
     - src/modules/utils.js          (RateLimiter.throttle, EmbeddingCache)

   Modelling conventions:
     - JS numbers are modelled as rationals; the real-valued cosine similarity of
       deduplication.js is modelled exactly over the reals, and the executable
       comparison simGt used by the deduplication loops is proved equivalent to
       the real comparison (simGt_iff_lt_cos).
     - A message is modelled by the fields the core reads: id, body, embedding.
       A null/undefined embedding is Option.none; an empty JS array is some [].
     - The SHA-1 content key of EmbeddingCache.getKey is modelled by the text
       itself (the spec treats the hash as an exact-match proxy for the text).
     - Timestamps of RateLimiter are integers (milliseconds).
     - Throwing JS code is modelled with Except; network responses are
       parameters standing for the external HTTP world. -/

structure Message where
  id : Nat
  body : String
  embedding : Option (List ℚ)
  deriving DecidableEq

/-- Out-of-range array access placeholder (it carries no embedding and is only
produced for indices past the end, where the loops of the source never look). -/
def defaultMsg : Message := ⟨0, "", none⟩

/-- messages[i] for the index-based loops of deduplicate. -/
def getMsg (ms : List Message) (i : Nat) : Message := ms.getD i defaultMsg

/-- The accumulators of the loop in cosineSimilarity (deduplication.js 70-74):
dotQ a b is dotProduct, dotQ a a is normA, dotQ b b is normB. -/
def dotQ (a b : List ℚ) : ℚ := ((a.zip b).map (fun p => p.1 * p.2)).sum

/-- Deduplicator.cosineSimilarity (deduplication.js 61-81), valued in the reals.
The null-vector guards of line 62 cannot fire here (callers pass actual lists);
the length guard and the zero-norm guard return 0 exactly as the source does. -/
noncomputable def cosineSimilarity (a b : List ℚ) : ℝ :=
  if a.length ≠ b.length then 0
  else if dotQ a a = 0 ∨ dotQ b b = 0 then 0
  else (dotQ a b : ℝ) / (Real.sqrt (dotQ a a) * Real.sqrt (dotQ b b))

/-- Executable decision of the branch condition of deduplicate line 33:
simGt a b t = true iff cosineSimilarity a b > t (theorem simGt_iff_lt_cos). -/
def simGt (a b : List ℚ) (t : ℚ) : Bool :=
  if a.length ≠ b.length then decide (t < 0)
  else if dotQ a a = 0 ∨ dotQ b b = 0 then decide (t < 0)
  else if 0 ≤ t then
    decide (0 < dotQ a b ∧ t ^ 2 * (dotQ a a * dotQ b b) < dotQ a b ^ 2)
  else decide (0 ≤ dotQ a b ∨ dotQ a b ^ 2 < t ^ 2 * (dotQ a a * dotQ b b))

/-- Inner loop of Deduplicator.deduplicate (deduplication.js 28-43): for a fixed
index i with embedding ei, scan the index list js (in the source: j = i+1 .. n-1);
d is the isDuplicate array.  Marking the shorter of a similar pair, or marking i
and breaking when i is not strictly longer, follows lines 33-42 exactly. -/
def innerScan (ms : List Message) (t : ℚ) (i : Nat) (ei : List ℚ) :
    List Nat → List Bool → List Bool
  | [], d => d
  | j :: js, d =>
    if d.getD j false then innerScan ms t i ei js d
    else
      match (getMsg ms j).embedding with
      | none => innerScan ms t i ei js d
      | some ej =>
        if simGt ei ej t then
          if (getMsg ms i).body.length > (getMsg ms j).body.length then
            innerScan ms t i ei js (d.set j true)
          else d.set i true
        else innerScan ms t i ei js d

/-- Outer loop of Deduplicator.deduplicate (deduplication.js 25-44). -/
def outerScan (ms : List Message) (t : ℚ) : List Nat → List Bool → List Bool
  | [], d => d
  | i :: rest, d =>
    if d.getD i false then outerScan ms t rest d
    else
      match (getMsg ms i).embedding with
      | none => outerScan ms t rest d
      | some ei =>
        outerScan ms t rest (innerScan ms t i ei (List.range' (i + 1) (ms.length - (i + 1))) d)

/-- The isDuplicate array at the end of the two loops of deduplicate. -/
def dedupMarks (t : ℚ) (ms : List Message) : List Bool :=
  outerScan ms t (List.range ms.length) (List.replicate ms.length false)

/-- Deduplicator.deduplicate (deduplication.js 17-53); t is this.threshold.
The final loop (lines 46-50) keeps exactly the unmarked messages in order.
(The source also computes an unused local, messageEmbeddings, omitted here.) -/
def deduplicate (t : ℚ) (ms : List Message) : List Message :=
  (ms.zip (dedupMarks t ms)).filterMap (fun p => if p.2 then none else some p.1)

/-- No pair of (distinct positions of) messages carries embeddings whose
similarity exceeds the threshold. -/
def NoSimP (t : ℚ) (ms : List Message) : Prop :=
  ∀ i j ei ej, i < j → (getMsg ms i).embedding = some ei →
    (getMsg ms j).embedding = some ej → simGt ei ej t = false

/- ===== embeddings.js ===== -/

inductive ProviderError where
  | transport (msg : String)
  | status (code : Nat) (body : String)
  | badJson (msg : String)
  | typeError
  | missingApiKey
  deriving DecidableEq

inductive EmbedError where
  | unsupportedProvider (p : String)
  | provider (e : ProviderError)
  deriving DecidableEq

/-- The parsed JSON body of an Ollama /api/embeddings response; a payload
without the embedding field parses to embedding = none (JS: undefined). -/
structure OllamaPayload where
  embedding : Option (List ℚ)
  deriving DecidableEq

structure GeminiEmbeddingField where
  value : Option (List ℚ)
  deriving DecidableEq

structure GeminiErrorInfo where
  message : String
  deriving DecidableEq

/-- The parsed JSON body of a Gemini embedContent response (fields the source
reads: data.error.message on failure, data.embedding.value on success). -/
structure GeminiPayload where
  error : Option GeminiErrorInfo
  embedding : Option GeminiEmbeddingField
  deriving DecidableEq

/-- An HTTP response as the source observes it: response.ok, response.status,
response.text(), and the outcome of response.json() (Except.error = the body is
not valid JSON, so response.json() throws). -/
structure HttpResponse (α : Type) where
  ok : Bool
  status : Nat
  bodyText : String
  json : Except String α

/-- Outcome of fetch(): Except.error = transport failure (fetch rejected). -/
abbrev FetchResult (α : Type) := Except String (HttpResponse α)

/-- EmbeddingService.getOllamaEmbedding (embeddings.js 75-92).  Returns the
embedding field of the parsed payload as-is: a well-formed payload without that
field yields Except.ok none (JS: the function returns undefined, not an error). -/
def getOllamaEmbedding (resp : FetchResult OllamaPayload) :
    Except ProviderError (Option (List ℚ)) :=
  match resp with
  | .error e => .error (.transport e)
  | .ok r =>
    if !r.ok then .error (.status r.status r.bodyText)
    else
      match r.json with
      | .error e => .error (.badJson e)
      | .ok data => .ok data.embedding

structure ProviderConfig where
  endpoint : Option String
  model : Option String
  apiKey : Option String
  deriving DecidableEq

/-- JS falsiness of an optional string (undefined or the empty string). -/
def strFalsy (s : Option String) : Bool := s.getD "" = ""

/-- EmbeddingService.getGeminiEmbedding (embeddings.js 99-121).  Reading
data.error.message (line 117) or data.embedding.value (line 120) on a payload
missing the outer field throws a TypeError, modelled as ProviderError.typeError;
a present embedding field with a missing value yields Except.ok none. -/
def getGeminiEmbedding (config : Option ProviderConfig) (resp : FetchResult GeminiPayload) :
    Except ProviderError (Option (List ℚ)) :=
  if strFalsy (config.bind ProviderConfig.apiKey) then .error .missingApiKey
  else
    match resp with
    | .error e => .error (.transport e)
    | .ok r =>
      if !r.ok then
        match r.json with
        | .error e => .error (.badJson e)
        | .ok data =>
          match data.error with
          | none => .error .typeError
          | some info => .error (.status r.status info.message)
      else
        match r.json with
        | .error e => .error (.badJson e)
        | .ok data =>
          match data.embedding with
          | none => .error .typeError
          | some f => .ok f.value

/-- The settings object: settings.provider plus per-provider configuration
(settings[p] is configs p).  Unused settings fields are omitted. -/
structure Settings where
  provider : Option String
  configs : String → Option ProviderConfig

/-- Fields assigned by the EmbeddingService constructor (embeddings.js 9-17). -/
structure EmbeddingService where
  provider : String
  config : Option ProviderConfig
  cacheMaxSize : Nat
  rlMaxRequests : Nat
  rlWindowMs : Nat

/-- The EmbeddingService constructor (embeddings.js 9-17).  It is a total
function: no validation of the provider name happens here.
settings.provider || 'ollama' is none/"" falsiness on the provider field. -/
def mkEmbeddingService (s : Settings) : EmbeddingService :=
  let p := match s.provider with
    | none => "ollama"
    | some str => if str = "" then "ollama" else str
  { provider := p
    config := s.configs p
    cacheMaxSize := 1000
    rlMaxRequests := 45
    rlWindowMs := 60000 }

/-- EmbeddingService.getEmbedding (embeddings.js 49-68): cache lookup, then
dispatch on this.provider, else throw for an unsupported provider.  The rate
limiter wait and the cache write-back mutate internal state only and do not
affect the returned value; cache is the current cache content keyed by text and
the two resp parameters stand for the provider network calls. -/
def EmbeddingService.getEmbedding (svc : EmbeddingService)
    (cache : String → Option (List ℚ))
    (ollamaResp : FetchResult OllamaPayload) (geminiResp : FetchResult GeminiPayload)
    (text : String) : Except EmbedError (Option (List ℚ)) :=
  match cache text with
  | some v => .ok (some v)
  | none =>
    if svc.provider = "ollama" then
      (getOllamaEmbedding ollamaResp).mapError EmbedError.provider
    else if svc.provider = "gemini" then
      (getGeminiEmbedding svc.config geminiResp).mapError EmbedError.provider
    else .error (.unsupportedProvider svc.provider)

/-- The loop body of generateEmbeddingsForMessages (embeddings.js 28-39), with
count the value before the iteration: try { push {...m, embedding} } catch
{ push {...m, embedding: null} }; count++; onProgress(count, total).  The
per-document outcome of this.getEmbedding is abstracted as embed count m.body
(an Except: error = the awaited call threw); onProgress invocations are
returned as the ordered list of (current, total) arguments. -/
def genEmbLoop {ε : Type} (embed : Nat → String → Except ε (Option (List ℚ)))
    (total : Nat) : Nat → List Message → List Message × List (Nat × Nat)
  | _, [] => ([], [])
  | count, m :: rest =>
    let m' := match embed count m.body with
      | .ok o => { m with embedding := o }
      | .error _ => { m with embedding := none }
    let r := genEmbLoop embed total (count + 1) rest
    (m' :: r.1, (count + 1, total) :: r.2)

/-- EmbeddingService.generateEmbeddingsForMessages (embeddings.js 25-41). -/
def generateEmbeddingsForMessages {ε : Type}
    (embed : Nat → String → Except ε (Option (List ℚ)))
    (ms : List Message) : List Message × List (Nat × Nat) :=
  genEmbLoop embed ms.length 0 ms

/- ===== utils.js ===== -/

/-- JS Map.set on an insertion-ordered association list: an existing key is
updated in place (its position is unchanged); a new key is appended. -/
def mapSet (c : List (String × List ℚ)) (k : String) (v : List ℚ) :
    List (String × List ℚ) :=
  if c.any (fun p => decide (p.1 = k)) then
    c.map (fun p => if p.1 = k then (k, v) else p)
  else c ++ [(k, v)]

/-- EmbeddingCache.set (utils.js 103-111): if size >= maxSize, delete the first
(oldest-inserted) key — a no-op on an empty map, as deleting the undefined
firstKey is in JS — then Map.set the new entry.  The SHA-1 key of getKey is
modelled by the text itself. -/
def cacheSet (maxSize : Nat) (c : List (String × List ℚ)) (k : String) (v : List ℚ) :
    List (String × List ℚ) :=
  mapSet (if maxSize ≤ c.length then c.tail else c) k v

/-- EmbeddingCache.get (utils.js 98-101): pure lookup, no state change. -/
def cacheGet (c : List (String × List ℚ)) (k : String) : Option (List ℚ) :=
  (c.find? (fun p => decide (p.1 = k))).map Prod.snd

/-- A run of EmbeddingCache.set operations starting from the empty cache of the
constructor. -/
def cacheRun (maxSize : Nat) (puts : List (String × List ℚ)) : List (String × List ℚ) :=
  puts.foldl (fun c p => cacheSet maxSize c p.1 p.2) []

/-- Modelled from RateLimiter.throttle (utils.js 67-80) for a sequential caller
and a monotone clock: ThrottleTrace maxR W ts adm holds when the limiter state
this.requestTimestamps can be ts with adm the ordered list of all admissions
granted so far.  A call at time now first assigns the filtered timestamp list
(line 70); if fewer than maxR remain the call is granted and pushes now (line 79),
otherwise it waits (blocked) and retries later, the retry being a later call of
the same shape.  The clock hypothesis: now is at least every earlier admitted
timestamp (Date.now() is nondecreasing across sequential calls). -/
inductive ThrottleTrace (maxR : Nat) (W : ℤ) : List ℤ → List ℤ → Prop
  | nil : ThrottleTrace maxR W [] []
  | grant {ts adm : List ℤ} (now : ℤ) :
      ThrottleTrace maxR W ts adm →
      (∀ a ∈ adm, a ≤ now) →
      (ts.filter (fun x => decide (now - x < W))).length < maxR →
      ThrottleTrace maxR W (ts.filter (fun x => decide (now - x < W)) ++ [now]) (adm ++ [now])
  | blocked {ts adm : List ℤ} (now : ℤ) :
      ThrottleTrace maxR W ts adm →
      (∀ a ∈ adm, a ≤ now) →
      maxR ≤ (ts.filter (fun x => decide (now - x < W))).length →
      ThrottleTrace maxR W (ts.filter (fun x => decide (now - x < W))) adm

/- ===== concrete inputs used by scenario theorems ===== -/

/-- The three documents of the spec scenario for deduplication (§8):
embeddings [1,0], [1,0.01], [0,1]; body lengths 100, 50, 80. -/
def scenMsgs : List Message :=
  [⟨1, String.mk (List.replicate 100 'a'), some [1, 0]⟩,
   ⟨2, String.mk (List.replicate 50 'a'), some [1, 1/100]⟩,
   ⟨3, String.mk (List.replicate 80 'a'), some [0, 1]⟩]

/-- Three documents refuting the per-pair reading of the length rule:
A similar to B (A longer), B similar to C (B longer), A not similar to C;
body lengths 10, 5, 3. -/
def cexMsgs : List Message :=
  [⟨1, String.mk (List.replicate 10 'a'), some [1, 0]⟩,
   ⟨2, String.mk (List.replicate 5 'a'), some [1, 3/10]⟩,
   ⟨3, String.mk (List.replicate 3 'a'), some [1, 3/5]⟩]

/-- The embedding value a document ends up with for one outcome of the awaited
getEmbedding call: the returned value on success, null on a thrown error. -/
def embedOutcome {ε : Type} (r : Except ε (Option (List ℚ))) : Option (List ℚ) :=
  match r with
  | .ok o => o
  | .error _ => none

/- ===================== theorems ===================== -/

theorem dotQ_self_nonneg (a : List ℚ) : 0 ≤ dotQ a a := by
  induction a with
  | nil => exact le_rfl
  | cons x a ih =>
    have hx : 0 ≤ x * x := mul_self_nonneg x
    simpa [dotQ, List.zip_cons_cons] using add_nonneg hx ih

/-- The executable comparison decides the real comparison of the source. -/
theorem simGt_iff_lt_cos (a b : List ℚ) (t : ℚ) :
    simGt a b t = true ↔ (t : ℝ) < cosineSimilarity a b := by
  unfold simGt cosineSimilarity
  by_cases hlen : a.length ≠ b.length
  · rw [if_pos hlen, if_pos hlen]
    simp only [decide_eq_true_eq]
    exact_mod_cast Iff.rfl
  · rw [if_neg hlen, if_neg hlen]
    by_cases hz : dotQ a a = 0 ∨ dotQ b b = 0
    · rw [if_pos hz, if_pos hz]
      simp only [decide_eq_true_eq]
      exact_mod_cast Iff.rfl
    · rw [if_neg hz, if_neg hz]
      push_neg at hz
      have hna : 0 < dotQ a a := lt_of_le_of_ne (dotQ_self_nonneg a) (Ne.symm hz.1)
      have hnb : 0 < dotQ b b := lt_of_le_of_ne (dotQ_self_nonneg b) (Ne.symm hz.2)
      have hnaR : (0 : ℝ) < (dotQ a a : ℝ) := by exact_mod_cast hna
      have hnbR : (0 : ℝ) < (dotQ b b : ℝ) := by exact_mod_cast hnb
      set s : ℝ := Real.sqrt (dotQ a a) * Real.sqrt (dotQ b b) with hs
      have hspos : 0 < s :=
        mul_pos (Real.sqrt_pos.mpr hnaR) (Real.sqrt_pos.mpr hnbR)
      have hssq : s ^ 2 = (dotQ a a : ℝ) * (dotQ b b : ℝ) := by
        rw [hs, mul_pow, Real.sq_sqrt hnaR.le, Real.sq_sqrt hnbR.le]
      have hdiv : ((t : ℝ) < (dotQ a b : ℝ) / s) ↔ (t : ℝ) * s < (dotQ a b : ℝ) :=
        lt_div_iff₀ hspos
      rw [hdiv]
      by_cases ht : 0 ≤ t
      · have htR : (0 : ℝ) ≤ (t : ℝ) := by exact_mod_cast ht
        simp only [ht, if_true, decide_eq_true_eq]
        constructor
        · rintro ⟨hdpos, hsq⟩
          have hdposR : (0 : ℝ) < (dotQ a b : ℝ) := by exact_mod_cast hdpos
          have hsqR : (t : ℝ) ^ 2 * ((dotQ a a : ℝ) * (dotQ b b : ℝ)) <
              (dotQ a b : ℝ) ^ 2 := by exact_mod_cast hsq
          by_contra hle
          push_neg at hle
          have h1 : (dotQ a b : ℝ) * (dotQ a b : ℝ) ≤ ((t : ℝ) * s) * ((t : ℝ) * s) :=
            mul_self_le_mul_self hdposR.le hle
          have h2 : ((t : ℝ) * s) * ((t : ℝ) * s) = (t : ℝ) ^ 2 * s ^ 2 := by ring
          rw [h2, hssq] at h1
          have h3 : (dotQ a b : ℝ) ^ 2 = (dotQ a b : ℝ) * (dotQ a b : ℝ) := by ring
          rw [h3] at hsqR
          exact absurd (lt_of_lt_of_le hsqR h1) (lt_irrefl _)
        · intro hlt
          have hts : 0 ≤ (t : ℝ) * s := mul_nonneg htR hspos.le
          have hdposR : (0 : ℝ) < (dotQ a b : ℝ) := lt_of_le_of_lt hts hlt
          have hdpos : 0 < dotQ a b := by exact_mod_cast hdposR
          refine ⟨hdpos, ?_⟩
          have h1 : ((t : ℝ) * s) * ((t : ℝ) * s) < (dotQ a b : ℝ) * (dotQ a b : ℝ) :=
            mul_self_lt_mul_self hts hlt
          have h3 : (t : ℝ) ^ 2 * ((dotQ a a : ℝ) * (dotQ b b : ℝ)) <
              (dotQ a b : ℝ) ^ 2 := by
            calc (t : ℝ) ^ 2 * ((dotQ a a : ℝ) * (dotQ b b : ℝ))
                = ((t : ℝ) * s) * ((t : ℝ) * s) := by rw [← hssq]; ring
              _ < (dotQ a b : ℝ) * (dotQ a b : ℝ) := h1
              _ = (dotQ a b : ℝ) ^ 2 := by ring
          exact_mod_cast h3
      · have htneg : t < 0 := lt_of_not_le ht
        have htnegR : (t : ℝ) < 0 := by exact_mod_cast htneg
        simp only [ht, if_false, decide_eq_true_eq]
        have htsneg : (t : ℝ) * s < 0 := mul_neg_of_neg_of_pos htnegR hspos
        constructor
        · rintro (hd0 | hsq)
          · have hd0R : (0 : ℝ) ≤ (dotQ a b : ℝ) := by exact_mod_cast hd0
            exact lt_of_lt_of_le htsneg hd0R
          · have hsqR : (dotQ a b : ℝ) ^ 2 < (t : ℝ) ^ 2 * ((dotQ a a : ℝ) * (dotQ b b : ℝ)) := by
              exact_mod_cast hsq
            by_contra hle
            push_neg at hle
            have h1 : ((t : ℝ) * s) * ((t : ℝ) * s) ≤ (dotQ a b : ℝ) * (dotQ a b : ℝ) := by
              have h := mul_self_le_mul_self (neg_nonneg.mpr htsneg.le) (neg_le_neg hle)
              simpa [neg_mul_neg] using h
            have h2 : (dotQ a b : ℝ) ^ 2 < ((t : ℝ) * s) * ((t : ℝ) * s) := by
              calc (dotQ a b : ℝ) ^ 2
                  < (t : ℝ) ^ 2 * ((dotQ a a : ℝ) * (dotQ b b : ℝ)) := hsqR
                _ = ((t : ℝ) * s) * ((t : ℝ) * s) := by rw [← hssq]; ring
            have h3 : (dotQ a b : ℝ) ^ 2 = (dotQ a b : ℝ) * (dotQ a b : ℝ) := by ring
            rw [h3] at h2
            exact absurd (lt_of_lt_of_le h2 h1) (lt_irrefl _)
        · intro hlt
          by_cases hd0 : 0 ≤ dotQ a b
          · exact Or.inl hd0
          · push_neg at hd0
            refine Or.inr ?_
            have hd0R : (dotQ a b : ℝ) < 0 := by exact_mod_cast hd0
            have h1 : (dotQ a b : ℝ) * (dotQ a b : ℝ) < ((t : ℝ) * s) * ((t : ℝ) * s) := by
              have h := mul_self_lt_mul_self (neg_nonneg.mpr hd0R.le) (neg_lt_neg hlt)
              simpa [neg_mul_neg] using h
            have h2 : (dotQ a b : ℝ) ^ 2 < (t : ℝ) ^ 2 * ((dotQ a a : ℝ) * (dotQ b b : ℝ)) := by
              calc (dotQ a b : ℝ) ^ 2 = (dotQ a b : ℝ) * (dotQ a b : ℝ) := by ring
                _ < ((t : ℝ) * s) * ((t : ℝ) * s) := h1
                _ = (t : ℝ) ^ 2 * ((dotQ a a : ℝ) * (dotQ b b : ℝ)) := by rw [← hssq]; ring
            exact_mod_cast h2

theorem zipFilter_sublist (ms : List Message) (d : List Bool) :
    ((ms.zip d).filterMap (fun p => if p.2 then none else some p.1)).Sublist ms := by
  induction ms generalizing d with
  | nil => simp
  | cons m ms ih =>
    cases d with
    | nil => simp
    | cons b d =>
      cases b with
      | false =>
        simpa [List.filterMap_cons] using (ih d).cons₂ m
      | true =>
        simpa [List.filterMap_cons] using (ih d).cons m

/-- C6: for every input list of documents, the output of dedupe is a subsequence
of the input: every output document occurs in the input, no document appears more
often than in the input, and original relative order is preserved. -/
theorem dedup_output_sublist (t : ℚ) (ms : List Message) :
    (deduplicate t ms).Sublist ms ∧
      ∀ m : Message, (deduplicate t ms).count m ≤ ms.count m := by
  refine ⟨zipFilter_sublist ms (dedupMarks t ms), fun m => ?_⟩
  exact (zipFilter_sublist ms (dedupMarks t ms)).count_le m

theorem getD_set_self (d : List Bool) (j : Nat) (hj : j < d.length) :
    (d.set j true).getD j false = true := by
  rw [List.getD_eq_getElem?_getD, List.getElem?_set_self hj]
  rfl

theorem getD_set_other (d : List Bool) (j k : Nat) (b : Bool) (h : j ≠ k) :
    (d.set j b).getD k false = d.getD k false := by
  rw [List.getD_eq_getElem?_getD, List.getElem?_set_ne h, ← List.getD_eq_getElem?_getD]

theorem getD_set_true_of_true (d : List Bool) (j k : Nat)
    (h : d.getD k false = true) : (d.set j true).getD k false = true := by
  by_cases hjk : j = k
  · subst hjk
    by_cases hj : j < d.length
    · exact getD_set_self d j hj
    · rw [List.set_eq_of_length_le (le_of_not_lt hj)]
      exact h
  · rw [getD_set_other d j k true hjk]
    exact h

theorem innerScan_length (ms : List Message) (t : ℚ) (i : Nat) (ei : List ℚ)
    (js : List Nat) (d : List Bool) :
    (innerScan ms t i ei js d).length = d.length := by
  induction js generalizing d with
  | nil => rfl
  | cons j js ih =>
    simp only [innerScan]
    split
    · exact ih d
    · split
      · exact ih d
      · split
        · split
          · rw [ih (d.set j true), List.length_set]
          · exact List.length_set d i true
        · exact ih d

theorem outerScan_length (ms : List Message) (t : ℚ) (li : List Nat) (d : List Bool) :
    (outerScan ms t li d).length = d.length := by
  induction li generalizing d with
  | nil => rfl
  | cons i rest ih =>
    simp only [outerScan]
    split
    · exact ih d
    · split
      · exact ih d
      · rw [ih _, innerScan_length]

theorem innerScan_mono (ms : List Message) (t : ℚ) (i : Nat) (ei : List ℚ)
    (js : List Nat) (d : List Bool) (k : Nat) (h : d.getD k false = true) :
    (innerScan ms t i ei js d).getD k false = true := by
  induction js generalizing d with
  | nil => exact h
  | cons j js ih =>
    simp only [innerScan]
    split
    · exact ih d h
    · split
      · exact ih d h
      · split
        · split
          · exact ih _ (getD_set_true_of_true d j k h)
          · exact getD_set_true_of_true d i k h
        · exact ih d h

theorem outerScan_mono (ms : List Message) (t : ℚ) (li : List Nat) (d : List Bool)
    (k : Nat) (h : d.getD k false = true) :
    (outerScan ms t li d).getD k false = true := by
  induction li generalizing d with
  | nil => exact h
  | cons i rest ih =>
    simp only [outerScan]
    split
    · exact ih d h
    · split
      · exact ih d h
      · exact ih _ (innerScan_mono ms t _ _ _ d k h)

theorem innerScan_false (ms : List Message) (t : ℚ) (i : Nat) (ei : List ℚ)
    (js : List Nat) (d : List Bool) (k : Nat)
    (h : (innerScan ms t i ei js d).getD k false = false) : d.getD k false = false := by
  cases hdk : d.getD k false
  · rfl
  · rw [innerScan_mono ms t i ei js d k hdk] at h
    exact absurd h (by simp)

theorem outerScan_false (ms : List Message) (t : ℚ) (li : List Nat) (d : List Bool)
    (k : Nat) (h : (outerScan ms t li d).getD k false = false) :
    d.getD k false = false := by
  cases hdk : d.getD k false
  · rfl
  · rw [outerScan_mono ms t li d k hdk] at h
    exact absurd h (by simp)

theorem getMsg_cons_zero (m : Message) (ms : List Message) : getMsg (m :: ms) 0 = m :=
  List.getD_cons_zero

theorem getMsg_cons_succ (m : Message) (ms : List Message) (i : Nat) :
    getMsg (m :: ms) (i + 1) = getMsg ms i :=
  List.getD_cons_succ

theorem bool_ne_true {b : Bool} (h : b = false) : ¬(b = true) :=
  fun hc => Bool.noConfusion (h.symm.trans hc)

theorem innerScan_cons_skip_marked (ms : List Message) (t : ℚ) (i : Nat) (ei : List ℚ)
    (j : Nat) (js : List Nat) (d : List Bool) (h : d.getD j false = true) :
    innerScan ms t i ei (j :: js) d = innerScan ms t i ei js d := by
  simp only [innerScan]
  rw [if_pos h]

theorem innerScan_cons_skip_none (ms : List Message) (t : ℚ) (i : Nat) (ei : List ℚ)
    (j : Nat) (js : List Nat) (d : List Bool) (h1 : d.getD j false = false)
    (h2 : (getMsg ms j).embedding = none) :
    innerScan ms t i ei (j :: js) d = innerScan ms t i ei js d := by
  simp only [innerScan]
  rw [if_neg (bool_ne_true h1)]
  split
  · rfl
  · next ej' heq => exact Option.noConfusion (h2.symm.trans heq)

theorem innerScan_cons_not_sim (ms : List Message) (t : ℚ) (i : Nat) (ei : List ℚ)
    (j : Nat) (js : List Nat) (d : List Bool) (ej : List ℚ)
    (h1 : d.getD j false = false) (h2 : (getMsg ms j).embedding = some ej)
    (h3 : simGt ei ej t = false) :
    innerScan ms t i ei (j :: js) d = innerScan ms t i ei js d := by
  simp only [innerScan]
  rw [if_neg (bool_ne_true h1)]
  split
  · next heq => exact Option.noConfusion (heq.symm.trans h2)
  · next ej' heq =>
    rw [h2] at heq
    cases Option.some.inj heq
    rw [if_neg (bool_ne_true h3)]

theorem innerScan_cons_mark_j (ms : List Message) (t : ℚ) (i : Nat) (ei : List ℚ)
    (j : Nat) (js : List Nat) (d : List Bool) (ej : List ℚ)
    (h1 : d.getD j false = false) (h2 : (getMsg ms j).embedding = some ej)
    (h3 : simGt ei ej t = true)
    (h4 : (getMsg ms i).body.length > (getMsg ms j).body.length) :
    innerScan ms t i ei (j :: js) d = innerScan ms t i ei js (d.set j true) := by
  simp only [innerScan]
  rw [if_neg (bool_ne_true h1)]
  split
  · next heq => exact Option.noConfusion (heq.symm.trans h2)
  · next ej' heq =>
    rw [h2] at heq
    cases Option.some.inj heq
    rw [if_pos h3, if_pos h4]

theorem innerScan_cons_mark_i (ms : List Message) (t : ℚ) (i : Nat) (ei : List ℚ)
    (j : Nat) (js : List Nat) (d : List Bool) (ej : List ℚ)
    (h1 : d.getD j false = false) (h2 : (getMsg ms j).embedding = some ej)
    (h3 : simGt ei ej t = true)
    (h4 : ¬((getMsg ms i).body.length > (getMsg ms j).body.length)) :
    innerScan ms t i ei (j :: js) d = d.set i true := by
  simp only [innerScan]
  rw [if_neg (bool_ne_true h1)]
  split
  · next heq => exact Option.noConfusion (heq.symm.trans h2)
  · next ej' heq =>
    rw [h2] at heq
    cases Option.some.inj heq
    rw [if_pos h3, if_neg h4]

theorem outerScan_cons_skip_marked (ms : List Message) (t : ℚ) (i : Nat)
    (rest : List Nat) (d : List Bool) (h : d.getD i false = true) :
    outerScan ms t (i :: rest) d = outerScan ms t rest d := by
  simp only [outerScan]
  rw [if_pos h]

theorem outerScan_cons_skip_none (ms : List Message) (t : ℚ) (i : Nat)
    (rest : List Nat) (d : List Bool) (h1 : d.getD i false = false)
    (h2 : (getMsg ms i).embedding = none) :
    outerScan ms t (i :: rest) d = outerScan ms t rest d := by
  simp only [outerScan]
  rw [if_neg (bool_ne_true h1)]
  split
  · rfl
  · next ei' heq => exact Option.noConfusion (h2.symm.trans heq)

theorem outerScan_cons_step (ms : List Message) (t : ℚ) (i : Nat)
    (rest : List Nat) (d : List Bool) (ei : List ℚ)
    (h1 : d.getD i false = false) (h2 : (getMsg ms i).embedding = some ei) :
    outerScan ms t (i :: rest) d =
      outerScan ms t rest (innerScan ms t i ei (List.range' (i + 1) (ms.length - (i + 1))) d) := by
  simp only [outerScan]
  rw [if_neg (bool_ne_true h1)]
  split
  · next heq => exact Option.noConfusion (heq.symm.trans h2)
  · next ei' heq =>
    rw [h2] at heq
    cases Option.some.inj heq
    rfl

/-- If i survives its inner scan, every index of the scan list that also ends
unmarked and carries an embedding was compared against ei and found not similar. -/
theorem innerScan_pair (ms : List Message) (t : ℚ) (i : Nat) (ei : List ℚ)
    (js : List Nat) :
    ∀ d : List Bool, i < d.length → (∀ j ∈ js, j < d.length) →
      (innerScan ms t i ei js d).getD i false = false →
      ∀ j ∈ js, (innerScan ms t i ei js d).getD j false = false →
        ∀ ej, (getMsg ms j).embedding = some ej → simGt ei ej t = false := by
  induction js with
  | nil =>
    intro d _ _ _ j hj
    exact absurd hj (List.not_mem_nil j)
  | cons j0 js ih =>
    intro d hi hjs hifin j hj hjfin ej hej
    cases hd0 : d.getD j0 false with
    | true =>
      rw [innerScan_cons_skip_marked ms t i ei j0 js d hd0] at hifin hjfin
      rcases List.mem_cons.mp hj with rfl | hjmem
      · exact Bool.noConfusion ((innerScan_mono ms t i ei js d j hd0).symm.trans hjfin)
      · exact ih d hi (fun x hx => hjs x (List.mem_cons_of_mem j0 hx)) hifin j hjmem hjfin ej hej
    | false =>
      cases heq : (getMsg ms j0).embedding with
      | none =>
        rw [innerScan_cons_skip_none ms t i ei j0 js d hd0 heq] at hifin hjfin
        rcases List.mem_cons.mp hj with rfl | hjmem
        · exact Option.noConfusion (heq.symm.trans hej)
        · exact ih d hi (fun x hx => hjs x (List.mem_cons_of_mem j0 hx)) hifin j hjmem hjfin ej hej
      | some ej0 =>
        cases hs : simGt ei ej0 t with
        | false =>
          rw [innerScan_cons_not_sim ms t i ei j0 js d ej0 hd0 heq hs] at hifin hjfin
          rcases List.mem_cons.mp hj with rfl | hjmem
          · rw [heq] at hej
            cases Option.some.inj hej
            exact hs
          · exact ih d hi (fun x hx => hjs x (List.mem_cons_of_mem j0 hx)) hifin j hjmem hjfin ej hej
        | true =>
          by_cases hlen : (getMsg ms i).body.length > (getMsg ms j0).body.length
          · rw [innerScan_cons_mark_j ms t i ei j0 js d ej0 hd0 heq hs hlen] at hifin hjfin
            rcases List.mem_cons.mp hj with rfl | hjmem
            · have hm : (innerScan ms t i ei js (d.set j true)).getD j false = true :=
                innerScan_mono ms t i ei js (d.set j true) j
                  (getD_set_self d j (hjs j (List.mem_cons_self j js)))
              exact Bool.noConfusion (hm.symm.trans hjfin)
            · refine ih (d.set j0 true) ?_ ?_ hifin j hjmem hjfin ej hej
              · rw [List.length_set]; exact hi
              · intro x hx
                rw [List.length_set]
                exact hjs x (List.mem_cons_of_mem j0 hx)
          · rw [innerScan_cons_mark_i ms t i ei j0 js d ej0 hd0 heq hs hlen] at hifin
            rw [getD_set_self d i hi] at hifin
            exact Bool.noConfusion hifin

/-- Any two list positions that both survive the outer scan and both carry
embeddings were compared and found not similar. -/
theorem outerScan_pair (ms : List Message) (t : ℚ) (li : List Nat) :
    ∀ d : List Bool, d.length = ms.length → (∀ x ∈ li, x < ms.length) →
      ∀ i ∈ li, ∀ j, i < j → j < ms.length →
        (outerScan ms t li d).getD i false = false →
        (outerScan ms t li d).getD j false = false →
        ∀ ei ej, (getMsg ms i).embedding = some ei →
          (getMsg ms j).embedding = some ej → simGt ei ej t = false := by
  induction li with
  | nil =>
    intro d _ _ i hi
    exact absurd hi (List.not_mem_nil i)
  | cons i0 rest ih =>
    intro d hdlen hbounds i hi j hij hj hifin hjfin ei ej hei hej
    cases hd0 : d.getD i0 false with
    | true =>
      rw [outerScan_cons_skip_marked ms t i0 rest d hd0] at hifin hjfin
      rcases List.mem_cons.mp hi with rfl | himem
      · exact Bool.noConfusion ((outerScan_mono ms t rest d i hd0).symm.trans hifin)
      · exact ih d hdlen (fun x hx => hbounds x (List.mem_cons_of_mem i0 hx))
          i himem j hij hj hifin hjfin ei ej hei hej
    | false =>
      cases heq : (getMsg ms i0).embedding with
      | none =>
        rw [outerScan_cons_skip_none ms t i0 rest d hd0 heq] at hifin hjfin
        rcases List.mem_cons.mp hi with rfl | himem
        · exact Option.noConfusion (heq.symm.trans hei)
        · exact ih d hdlen (fun x hx => hbounds x (List.mem_cons_of_mem i0 hx))
            i himem j hij hj hifin hjfin ei ej hei hej
      | some ei0 =>
        rw [outerScan_cons_step ms t i0 rest d ei0 hd0 heq] at hifin hjfin
        have hd1len : (innerScan ms t i0 ei0
            (List.range' (i0 + 1) (ms.length - (i0 + 1))) d).length = ms.length := by
          rw [innerScan_length, hdlen]
        rcases List.mem_cons.mp hi with rfl | himem
        · -- i = i0: use the inner-scan pair lemma on the pre-state
          have hi0n : i < ms.length := hbounds i (List.mem_cons_self i rest)
          have hrange : (i + 1) + (ms.length - (i + 1)) = ms.length :=
            Nat.add_sub_cancel' hi0n
          have hjr : j ∈ List.range' (i + 1) (ms.length - (i + 1)) := by
            rw [List.mem_range'_1, hrange]
            exact ⟨hij, hj⟩
          have hifin' : (innerScan ms t i ei0
              (List.range' (i + 1) (ms.length - (i + 1))) d).getD i false = false :=
            outerScan_false ms t rest _ i hifin
          have hjfin' : (innerScan ms t i ei0
              (List.range' (i + 1) (ms.length - (i + 1))) d).getD j false = false :=
            outerScan_false ms t rest _ j hjfin
          have hee : ei0 = ei := by
            rw [heq] at hei
            exact Option.some.inj hei
          subst hee
          refine innerScan_pair ms t i ei0 (List.range' (i + 1) (ms.length - (i + 1))) d
            ?_ ?_ hifin' j hjr hjfin' ej hej
          · rw [hdlen]; exact hi0n
          · intro x hx
            rw [hdlen]
            rw [List.mem_range'_1, hrange] at hx
            exact hx.2
        · exact ih _ hd1len (fun x hx => hbounds x (List.mem_cons_of_mem i0 hx))
            i himem j hij hj hifin hjfin ei ej hei hej

theorem getMsg_embedding_none_of_ge (ms : List Message) (j : Nat)
    (h : ms.length ≤ j) : (getMsg ms j).embedding = none := by
  unfold getMsg
  rw [List.getD_eq_default ms defaultMsg h]
  rfl

/-- Any two positions both unmarked by dedupMarks and both embedded are not
similar. -/
theorem dedupMarks_pair (t : ℚ) (ms : List Message) :
    ∀ i j ei ej, i < j →
      (dedupMarks t ms).getD i false = false →
      (dedupMarks t ms).getD j false = false →
      (getMsg ms i).embedding = some ei → (getMsg ms j).embedding = some ej →
      simGt ei ej t = false := by
  intro i j ei ej hij hdi hdj hei hej
  by_cases hjn : j < ms.length
  · have hin : i < ms.length := lt_trans hij hjn
    exact outerScan_pair ms t (List.range ms.length) (List.replicate ms.length false)
      (List.length_replicate ms.length false) (fun x hx => List.mem_range.mp hx)
      i (List.mem_range.mpr hin) j hij hjn hdi hdj ei ej hei hej
  · rw [getMsg_embedding_none_of_ge ms j (le_of_not_lt hjn)] at hej
    exact Option.noConfusion hej

theorem innerScan_noMark (ms : List Message) (t : ℚ) (i : Nat) (ei : List ℚ)
    (js : List Nat) (d : List Bool)
    (h : ∀ j ∈ js, ∀ ej, (getMsg ms j).embedding = some ej → simGt ei ej t = false) :
    innerScan ms t i ei js d = d := by
  induction js with
  | nil => rfl
  | cons j0 js ih =>
    cases hd0 : d.getD j0 false with
    | true =>
      rw [innerScan_cons_skip_marked ms t i ei j0 js d hd0]
      exact ih (fun x hx ex hex => h x (List.mem_cons_of_mem j0 hx) ex hex)
    | false =>
      cases heq : (getMsg ms j0).embedding with
      | none =>
        rw [innerScan_cons_skip_none ms t i ei j0 js d hd0 heq]
        exact ih (fun x hx ex hex => h x (List.mem_cons_of_mem j0 hx) ex hex)
      | some ej0 =>
        rw [innerScan_cons_not_sim ms t i ei j0 js d ej0 hd0 heq
          (h j0 (List.mem_cons_self j0 js) ej0 heq)]
        exact ih (fun x hx ex hex => h x (List.mem_cons_of_mem j0 hx) ex hex)

theorem outerScan_noMark (ms : List Message) (t : ℚ) (li : List Nat) (d : List Bool)
    (h : NoSimP t ms) : outerScan ms t li d = d := by
  induction li with
  | nil => rfl
  | cons i0 rest ih =>
    cases hd0 : d.getD i0 false with
    | true =>
      rw [outerScan_cons_skip_marked ms t i0 rest d hd0]
      exact ih
    | false =>
      cases heq : (getMsg ms i0).embedding with
      | none =>
        rw [outerScan_cons_skip_none ms t i0 rest d hd0 heq]
        exact ih
      | some ei0 =>
        rw [outerScan_cons_step ms t i0 rest d ei0 hd0 heq]
        rw [innerScan_noMark ms t i0 ei0 _ d ?_]
        · exact ih
        · intro x hx ex hex
          rw [List.mem_range'_1] at hx
          exact h i0 x ei0 ex (Nat.lt_of_succ_le hx.1) heq hex

theorem zipFilter_replicate_false (ms : List Message) :
    ((ms.zip (List.replicate ms.length false)).filterMap
      (fun p => if p.2 then none else some p.1)) = ms := by
  induction ms with
  | nil => rfl
  | cons m ms ih =>
    simp only [List.length_cons, List.replicate_succ, List.zip_cons_cons,
      List.filterMap_cons]
    simp only [if_neg (bool_ne_true rfl)]
    rw [ih]

/-- If no pair of documents is similar, deduplicate is the identity. -/
theorem dedup_eq_self_of_noSim (t : ℚ) (ms : List Message) (h : NoSimP t ms) :
    deduplicate t ms = ms := by
  unfold deduplicate dedupMarks
  rw [outerScan_noMark ms t _ _ h]
  exact zipFilter_replicate_false ms

/-- Every position of the kept sublist comes from an unmarked position of the
original list. -/
theorem zipFilter_getMsg (ms : List Message) :
    ∀ (d : List Bool) (q : Nat),
      q < ((ms.zip d).filterMap (fun p => if p.2 then none else some p.1)).length →
      ∃ jq, jq < ms.length ∧ d.getD jq false = false ∧
        getMsg ((ms.zip d).filterMap (fun p => if p.2 then none else some p.1)) q =
          getMsg ms jq := by
  induction ms with
  | nil =>
    intro d q hq
    simp at hq
  | cons m ms ih =>
    intro d q hq
    cases d with
    | nil => simp at hq
    | cons b d =>
      cases b with
      | true =>
        simp only [List.zip_cons_cons, List.filterMap_cons, if_pos rfl] at hq ⊢
        obtain ⟨jq, h1, h2, h3⟩ := ih d q hq
        exact ⟨jq + 1, Nat.succ_lt_succ h1,
          by simpa [List.getD_cons_succ] using h2,
          by simpa [getMsg_cons_succ] using h3⟩
      | false =>
        simp only [List.zip_cons_cons, List.filterMap_cons,
          if_neg (bool_ne_true rfl)] at hq ⊢
        cases q with
        | zero =>
          exact ⟨0, Nat.succ_pos ms.length, rfl, by rw [getMsg_cons_zero, getMsg_cons_zero]⟩
        | succ q' =>
          obtain ⟨jq, h1, h2, h3⟩ := ih d q' (Nat.lt_of_succ_lt_succ hq)
          exact ⟨jq + 1, Nat.succ_lt_succ h1,
            by simpa [List.getD_cons_succ] using h2,
            by simpa [getMsg_cons_succ] using h3⟩

/-- Pairwise non-similarity of surviving positions transfers to the kept
sublist. -/
theorem zipFilter_noSim (t : ℚ) (ms : List Message) :
    ∀ d : List Bool,
      (∀ i j ei ej, i < j → d.getD i false = false → d.getD j false = false →
        (getMsg ms i).embedding = some ei → (getMsg ms j).embedding = some ej →
        simGt ei ej t = false) →
      NoSimP t ((ms.zip d).filterMap (fun p => if p.2 then none else some p.1)) := by
  induction ms with
  | nil =>
    intro d _ i j ei ej _ hei _
    rw [List.zip_nil_left, List.filterMap_nil] at hei
    rw [getMsg_embedding_none_of_ge [] i (Nat.zero_le i)] at hei
    exact Option.noConfusion hei
  | cons m ms ih =>
    intro d hP
    cases d with
    | nil =>
      intro i j ei ej _ hei _
      rw [List.zip_nil_right, List.filterMap_nil] at hei
      rw [getMsg_embedding_none_of_ge [] i (Nat.zero_le i)] at hei
      exact Option.noConfusion hei
    | cons b d =>
      cases b with
      | true =>
        simp only [List.zip_cons_cons, List.filterMap_cons, if_pos rfl]
        apply ih d
        intro i j ei ej hij hdi hdj hei hej
        exact hP (i + 1) (j + 1) ei ej (Nat.succ_lt_succ hij)
          (by simpa [List.getD_cons_succ] using hdi)
          (by simpa [List.getD_cons_succ] using hdj)
          (by simpa [getMsg_cons_succ] using hei)
          (by simpa [getMsg_cons_succ] using hej)
      | false =>
        simp only [List.zip_cons_cons, List.filterMap_cons, if_neg (bool_ne_true rfl)]
        intro i j ei ej hij hei hej
        cases i with
        | zero =>
          cases j with
          | zero => exact absurd hij (lt_irrefl 0)
          | succ j' =>
            rw [getMsg_cons_succ] at hej
            rw [getMsg_cons_zero] at hei
            by_cases hq : j' <
                ((ms.zip d).filterMap (fun p => if p.2 then none else some p.1)).length
            · obtain ⟨jq, hjq1, hjq2, hjq3⟩ := zipFilter_getMsg ms d j' hq
              rw [hjq3] at hej
              exact hP 0 (jq + 1) ei ej (Nat.succ_pos jq) rfl
                (by simpa [List.getD_cons_succ] using hjq2)
                (by rw [getMsg_cons_zero]; exact hei)
                (by rw [getMsg_cons_succ]; exact hej)
            · rw [getMsg_embedding_none_of_ge _ j' (le_of_not_lt hq)] at hej
              exact Option.noConfusion hej
        | succ i' =>
          cases j with
          | zero => exact absurd hij (Nat.not_lt_zero (i' + 1))
          | succ j' =>
            rw [getMsg_cons_succ] at hei hej
            refine ih d ?_ i' j' ei ej (Nat.lt_of_succ_lt_succ hij) hei hej
            intro a c ea ec hac hda hdc hea hec
            exact hP (a + 1) (c + 1) ea ec (Nat.succ_lt_succ hac)
              (by simpa [List.getD_cons_succ] using hda)
              (by simpa [List.getD_cons_succ] using hdc)
              (by simpa [getMsg_cons_succ] using hea)
              (by simpa [getMsg_cons_succ] using hec)

/-- No two survivors of deduplicate are similar. -/
theorem dedup_noSim (t : ℚ) (ms : List Message) : NoSimP t (deduplicate t ms) := by
  unfold deduplicate
  exact zipFilter_noSim t ms (dedupMarks t ms) (dedupMarks_pair t ms)

/-- C7: dedupe is idempotent: a second pass removes nothing further. -/
theorem dedup_idempotent (t : ℚ) (ms : List Message) :
    deduplicate t (deduplicate t ms) = deduplicate t ms :=
  dedup_eq_self_of_noSim t (deduplicate t ms) (dedup_noSim t ms)

theorem simGt_nil_right (a : List ℚ) (t : ℚ) (ht : 0 ≤ t) : simGt a [] t = false := by
  unfold simGt
  by_cases h : a.length ≠ ([] : List ℚ).length
  · rw [if_pos h]
    exact decide_eq_false (not_lt.mpr ht)
  · rw [if_neg h]
    push_neg at h
    have ha : a = [] := List.length_eq_zero.mp (by simpa using h)
    subst ha
    rw [if_pos (Or.inl (show dotQ [] [] = 0 from rfl))]
    exact decide_eq_false (not_lt.mpr ht)

theorem simGt_nil_left (b : List ℚ) (t : ℚ) (ht : 0 ≤ t) : simGt [] b t = false := by
  unfold simGt
  by_cases h : ([] : List ℚ).length ≠ b.length
  · rw [if_pos h]
    exact decide_eq_false (not_lt.mpr ht)
  · rw [if_neg h]
    push_neg at h
    have hb : b = [] := List.length_eq_zero.mp (by simpa using h.symm)
    subst hb
    rw [if_pos (Or.inl (show dotQ [] [] = 0 from rfl))]
    exact decide_eq_false (not_lt.mpr ht)

/-- A document with no embedding, or an empty one, is never marked by the inner
scan (for a nonnegative threshold). -/
theorem innerScan_keeps_unmarkable (ms : List Message) (t : ℚ) (i : Nat) (ei : List ℚ)
    (js : List Nat) (ht : 0 ≤ t) (hie : (getMsg ms i).embedding = some ei) (k : Nat)
    (hk : (getMsg ms k).embedding = none ∨ (getMsg ms k).embedding = some []) :
    ∀ d : List Bool, d.getD k false = false →
      (innerScan ms t i ei js d).getD k false = false := by
  induction js with
  | nil => intro d hdk; exact hdk
  | cons j0 js ih =>
    intro d hdk
    cases hd0 : d.getD j0 false with
    | true =>
      rw [innerScan_cons_skip_marked ms t i ei j0 js d hd0]
      exact ih d hdk
    | false =>
      cases heq : (getMsg ms j0).embedding with
      | none =>
        rw [innerScan_cons_skip_none ms t i ei j0 js d hd0 heq]
        exact ih d hdk
      | some ej0 =>
        cases hs : simGt ei ej0 t with
        | false =>
          rw [innerScan_cons_not_sim ms t i ei j0 js d ej0 hd0 heq hs]
          exact ih d hdk
        | true =>
          by_cases hlen : (getMsg ms i).body.length > (getMsg ms j0).body.length
          · rw [innerScan_cons_mark_j ms t i ei j0 js d ej0 hd0 heq hs hlen]
            apply ih (d.set j0 true)
            by_cases hjk : j0 = k
            · subst hjk
              rcases hk with hkn | hke
              · exact Option.noConfusion (heq.symm.trans hkn)
              · rw [heq] at hke
                cases Option.some.inj hke
                exact Bool.noConfusion ((simGt_nil_right ei t ht).symm.trans hs)
            · rw [getD_set_other d j0 k true hjk]
              exact hdk
          · rw [innerScan_cons_mark_i ms t i ei j0 js d ej0 hd0 heq hs hlen]
            by_cases hik : i = k
            · subst hik
              rcases hk with hkn | hke
              · exact Option.noConfusion (hie.symm.trans hkn)
              · rw [hie] at hke
                cases Option.some.inj hke
                exact Bool.noConfusion ((simGt_nil_left ej0 t ht).symm.trans hs)
            · rw [getD_set_other d i k true hik]
              exact hdk

/-- A document with no embedding, or an empty one, is never marked by the outer
scan (for a nonnegative threshold). -/
theorem outerScan_keeps_unmarkable (ms : List Message) (t : ℚ) (li : List Nat)
    (ht : 0 ≤ t) (k : Nat)
    (hk : (getMsg ms k).embedding = none ∨ (getMsg ms k).embedding = some []) :
    ∀ d : List Bool, d.getD k false = false →
      (outerScan ms t li d).getD k false = false := by
  induction li with
  | nil => intro d hdk; exact hdk
  | cons i0 rest ih =>
    intro d hdk
    cases hd0 : d.getD i0 false with
    | true =>
      rw [outerScan_cons_skip_marked ms t i0 rest d hd0]
      exact ih d hdk
    | false =>
      cases heq : (getMsg ms i0).embedding with
      | none =>
        rw [outerScan_cons_skip_none ms t i0 rest d hd0 heq]
        exact ih d hdk
      | some ei0 =>
        rw [outerScan_cons_step ms t i0 rest d ei0 hd0 heq]
        exact ih _ (innerScan_keeps_unmarkable ms t i0 ei0 _ ht heq k hk d hdk)

theorem getD_replicate_false (n k : Nat) :
    (List.replicate n false).getD k false = false := by
  rw [List.getD_eq_getElem?_getD, List.getElem?_replicate]
  split <;> rfl

theorem dedupMarks_length (t : ℚ) (ms : List Message) :
    (dedupMarks t ms).length = ms.length := by
  unfold dedupMarks
  rw [outerScan_length, List.length_replicate]

/-- An unmarked in-range position contributes its message to the kept sublist. -/
theorem zipFilter_mem (ms : List Message) :
    ∀ (d : List Bool) (k : Nat), k < ms.length → k < d.length →
      d.getD k false = false →
      getMsg ms k ∈ (ms.zip d).filterMap (fun p => if p.2 then none else some p.1) := by
  induction ms with
  | nil =>
    intro d k hk
    exact absurd hk (Nat.not_lt_zero k)
  | cons m ms ih =>
    intro d k hk hkd hdk
    cases d with
    | nil => exact absurd hkd (Nat.not_lt_zero k)
    | cons b d =>
      cases k with
      | zero =>
        have hb : b = false := hdk
        subst hb
        simp only [List.zip_cons_cons, List.filterMap_cons, if_neg (bool_ne_true rfl),
          getMsg_cons_zero]
        exact List.mem_cons_self m _
      | succ k' =>
        rw [getMsg_cons_succ]
        have hmem := ih d k' (Nat.lt_of_succ_lt_succ hk) (Nat.lt_of_succ_lt_succ hkd)
          (by simpa [List.getD_cons_succ] using hdk)
        cases b with
        | true =>
          simpa only [List.zip_cons_cons, List.filterMap_cons, if_pos rfl] using hmem
        | false =>
          simp only [List.zip_cons_cons, List.filterMap_cons, if_neg (bool_ne_true rfl)]
          exact List.mem_cons_of_mem m hmem

/-- C8: for every input list and every similarity threshold in (0,1), every
document whose embedding is absent (null) or empty is never marked as a
duplicate and is retained in the output of dedupe. -/
theorem dedup_retains_embeddingless (t : ℚ) (ms : List Message) (i : Nat)
    (ht0 : 0 < t) (ht1 : t < 1) (hi : i < ms.length)
    (hk : (getMsg ms i).embedding = none ∨ (getMsg ms i).embedding = some []) :
    (dedupMarks t ms).getD i false = false ∧ getMsg ms i ∈ deduplicate t ms := by
  have hmark : (dedupMarks t ms).getD i false = false := by
    unfold dedupMarks
    exact outerScan_keeps_unmarkable ms t _ ht0.le i hk _
      (getD_replicate_false ms.length i)
  refine ⟨hmark, ?_⟩
  unfold deduplicate
  exact zipFilter_mem ms (dedupMarks t ms) i hi (by rw [dedupMarks_length]; exact hi) hmark

/-- C8 witness: a document with a null embedding, at threshold 0.95, is kept. -/
theorem dedup_retains_embeddingless_witness :
    (dedupMarks (19/20) [⟨7, "hello", none⟩]).getD 0 false = false ∧
      getMsg [⟨7, "hello", none⟩] 0 ∈ deduplicate (19/20) [⟨7, "hello", none⟩] :=
  dedup_retains_embeddingless (19/20) [⟨7, "hello", none⟩] 0
    (by norm_num) (by norm_num) (by norm_num) (Or.inl rfl)

theorem genEmbLoop_eq {ε : Type} (embed : Nat → String → Except ε (Option (List ℚ)))
    (total : Nat) :
    ∀ (ms : List Message) (c : Nat),
      genEmbLoop embed total c ms =
        (ms.mapIdx (fun k m => { m with embedding := embedOutcome (embed (c + k) m.body) }),
         (List.range' (c + 1) ms.length).map (fun x => (x, total))) := by
  intro ms
  induction ms with
  | nil => intro c; rfl
  | cons m rest ih =>
    intro c
    simp only [genEmbLoop, ih (c + 1), List.mapIdx_cons, List.length_cons,
      List.range'_succ, List.map_cons]
    congr 1
    congr 1
    · rw [Nat.add_zero]
      cases embed c m.body <;> rfl
    · have hfun : (fun k (x : Message) =>
          { x with embedding := embedOutcome (embed (c + 1 + k) x.body) }) =
          (fun k (x : Message) =>
            { x with embedding := embedOutcome (embed (c + (k + 1)) x.body) }) := by
        funext k x
        rw [show c + 1 + k = c + (k + 1) by omega]
      rw [hfun]

/-- The full characterization of the batch loop: one output per input document,
in order, with the per-document outcome recorded, and one progress call per
document with current = 1..total. -/
theorem generateEmbeddings_eq {ε : Type} (embed : Nat → String → Except ε (Option (List ℚ)))
    (ms : List Message) :
    generateEmbeddingsForMessages embed ms =
      (ms.mapIdx (fun k m => { m with embedding := embedOutcome (embed k m.body) }),
       (List.range' 1 ms.length).map (fun x => (x, ms.length))) := by
  unfold generateEmbeddingsForMessages
  rw [genEmbLoop_eq]
  simp only [Nat.zero_add]

/-- C1: for every input list and every per-document outcome of the provider
call, generateEmbeddingsForMessages returns exactly one output entry per input
document, in input order, with the failing documents carried with a null
embedding (it never raises for an individual document), and invokes onProgress
exactly once per document, in input order, with current = 1..total. -/
theorem generateEmbeddings_per_document {ε : Type}
    (embed : Nat → String → Except ε (Option (List ℚ))) (ms : List Message) :
    generateEmbeddingsForMessages embed ms =
      (ms.mapIdx (fun k m => { m with embedding := embedOutcome (embed k m.body) }),
       (List.range' 1 ms.length).map (fun x => (x, ms.length))) :=
  generateEmbeddings_eq embed ms

theorem mapIdx_ignore {α β : Type} (f : α → β) (l : List α) :
    l.mapIdx (fun _ a => f a) = l.map f := by
  induction l with
  | nil => rfl
  | cons a l ih =>
    simp only [List.mapIdx_cons, List.map_cons]
    rw [ih]

/-- C3 (amended): constructing the client with an unsupported provider name
succeeds (the constructor validates nothing and stores the name); the
unsupported-provider error is raised by each getEmbedding call (here: with the
empty cache of a fresh service), and in the batch path that error is absorbed
as a per-document "no embedding" failure: the batch completes with every
document carried with a null embedding. -/
theorem construction_defers_unsupported (s : Settings) (p : String)
    (hp : s.provider = some p) (hne : p ≠ "") (hno : p ≠ "ollama") (hng : p ≠ "gemini")
    (oResp : FetchResult OllamaPayload) (gResp : FetchResult GeminiPayload) :
    (mkEmbeddingService s).provider = p ∧
    (∀ text, (mkEmbeddingService s).getEmbedding (fun _ => none) oResp gResp text =
      .error (.unsupportedProvider p)) ∧
    (∀ ms : List Message,
      generateEmbeddingsForMessages
        (fun _ text =>
          (mkEmbeddingService s).getEmbedding (fun _ => none) oResp gResp text) ms =
      (ms.map (fun m => { m with embedding := none }),
       (List.range' 1 ms.length).map (fun x => (x, ms.length)))) := by
  have hprov : (mkEmbeddingService s).provider = p := by
    unfold mkEmbeddingService
    rw [hp]
    simp only [if_neg hne]
  have hget : ∀ text, (mkEmbeddingService s).getEmbedding (fun _ => none) oResp gResp text =
      .error (.unsupportedProvider p) := by
    intro text
    unfold EmbeddingService.getEmbedding
    rw [hprov, if_neg hno, if_neg hng]
  refine ⟨hprov, hget, ?_⟩
  intro ms
  rw [generateEmbeddings_eq]
  have hfun : (fun k (m : Message) =>
      { m with embedding := (embedOutcome
          ((mkEmbeddingService s).getEmbedding (fun _ => none) oResp gResp m.body)) }) =
      (fun (_ : Nat) (m : Message) => { m with embedding := none }) := by
    funext k m
    rw [hget m.body]
    rfl
  rw [hfun, mapIdx_ignore]

/-- C3 counterexample: with provider "bogus" the constructor completes and
stores the name; the batch over one document completes normally, the
unsupported-provider error being absorbed as that document's null embedding —
it is not a construction-time failure and it is absorbed per document. -/
theorem construction_unsupported_counterexample :
    (mkEmbeddingService ⟨some "bogus", fun _ => none⟩).provider = "bogus" ∧
    generateEmbeddingsForMessages
      (fun _ text => (mkEmbeddingService ⟨some "bogus", fun _ => none⟩).getEmbedding
        (fun _ => none) (.error "down") (.error "down") text) [⟨1, "hi", none⟩] =
      ([⟨1, "hi", none⟩], [(1, 1)]) := by
  constructor
  · rfl
  · rfl

theorem construction_defers_unsupported_witness :
    (mkEmbeddingService ⟨some "weird", fun _ => none⟩).provider = "weird" ∧
    (mkEmbeddingService ⟨some "weird", fun _ => none⟩).getEmbedding (fun _ => none)
      (.error "e") (.error "e") "txt" = .error (.unsupportedProvider "weird") ∧
    generateEmbeddingsForMessages
      (fun _ text => (mkEmbeddingService ⟨some "weird", fun _ => none⟩).getEmbedding
        (fun _ => none) (.error "e") (.error "e") text) [⟨2, "txt", none⟩] =
      ([⟨2, "txt", none⟩], [(1, 1)]) := by
  have h := construction_defers_unsupported ⟨some "weird", fun _ => none⟩ "weird"
    rfl (by decide) (by decide) (by decide) (.error "e") (.error "e")
  exact ⟨h.1, h.2.1 "txt", (h.2.2 [⟨2, "txt", none⟩]).trans rfl⟩

/-- C2 (amended): when the scan actually compares a pair i, j (j unmarked,
embedded, similarity above threshold), the document with the shorter body is
marked: j is marked and the scan continues if i is strictly longer, otherwise
(shorter or equal) i is marked and i's scan stops.  Pairs are only compared
while both are unmarked, so across a whole run the longer member of a similar
pair may still be removed through a third document.  In particular, on the spec
scenario (embeddings [1,0], [1,0.01], [0,1], body lengths 100, 50, 80,
threshold 0.95) dedupe returns exactly documents 1 and 3, in that order. -/
theorem dedup_compare_marks_shorter :
    (∀ (ms : List Message) (t : ℚ) (i : Nat) (ei : List ℚ) (j : Nat) (js : List Nat)
        (d : List Bool) (ej : List ℚ),
      d.getD j false = false → (getMsg ms j).embedding = some ej → simGt ei ej t = true →
      ((getMsg ms i).body.length > (getMsg ms j).body.length →
        innerScan ms t i ei (j :: js) d = innerScan ms t i ei js (d.set j true)) ∧
      (¬((getMsg ms i).body.length > (getMsg ms j).body.length) →
        innerScan ms t i ei (j :: js) d = d.set i true)) ∧
    deduplicate (19/20) scenMsgs =
      [⟨1, String.mk (List.replicate 100 'a'), some [1, 0]⟩,
       ⟨3, String.mk (List.replicate 80 'a'), some [0, 1]⟩] := by
  constructor
  · intro ms t i ei j js d ej h1 h2 h3
    exact ⟨fun h4 => innerScan_cons_mark_j ms t i ei j js d ej h1 h2 h3 h4,
           fun h4 => innerScan_cons_mark_i ms t i ei j js d ej h1 h2 h3 h4⟩
  · norm_num [deduplicate, dedupMarks, outerScan, innerScan, simGt, dotQ, getMsg,
      scenMsgs, String.length, List.replicate, List.set, List.zip, List.zipWith,
      List.filterMap]

theorem dedup_compare_marks_shorter_witness :
    innerScan scenMsgs (19/20) 0 [1, 0] [1] [false, false, false] =
      innerScan scenMsgs (19/20) 0 [1, 0] [] ([false, false, false].set 1 true) :=
  (dedup_compare_marks_shorter.1 scenMsgs (19/20) 0 [1, 0] 1 [] [false, false, false]
    [1, 1/100] rfl rfl (by norm_num [simGt, dotQ])).1
    (by norm_num [getMsg, scenMsgs, String.length])

/-- C2 counterexample: in cexMsgs, documents 2 and 3 (positions 1 < 2) have
similarity above the threshold and document 2 has the longer body, yet dedupe
removes document 2 (marked earlier through document 1) and keeps document 3: a
similar pair whose shorter member survives while the longer one is removed. -/
theorem dedup_length_rule_counterexample :
    simGt [1, 3/10] [1, 3/5] (19/20) = true ∧
    (getMsg cexMsgs 1).embedding = some [1, 3/10] ∧
    (getMsg cexMsgs 2).embedding = some [1, 3/5] ∧
    (getMsg cexMsgs 1).body.length > (getMsg cexMsgs 2).body.length ∧
    deduplicate (19/20) cexMsgs = [getMsg cexMsgs 0, getMsg cexMsgs 2] := by
  refine ⟨by norm_num [simGt, dotQ], rfl, rfl, ?_, ?_⟩
  · norm_num [getMsg, cexMsgs, String.length]
  · norm_num [deduplicate, dedupMarks, outerScan, innerScan, simGt, dotQ, getMsg,
      cexMsgs, String.length, List.replicate, List.set, List.zip, List.zipWith,
      List.filterMap]

/-- C9 (amended): the provider embed operation fails with a ProviderError on
transport failure, on a non-ok (non-2xx) response, and on a malformed
(unparseable) JSON payload, for both providers (for the cloud provider: given a
present api key); however a successful local-provider response whose parsed
payload merely lacks the embedding field is NOT an error: it yields a non-error
absent vector (the source returns data.embedding, i.e. undefined). -/
theorem provider_embed_error_conditions :
    (∀ e, getOllamaEmbedding (.error e) = .error (.transport e)) ∧
    (∀ (st : Nat) (bt : String) (js : Except String OllamaPayload),
      getOllamaEmbedding (.ok ⟨false, st, bt, js⟩) = .error (.status st bt)) ∧
    (∀ (st : Nat) (bt : String) (m : String),
      getOllamaEmbedding (.ok ⟨true, st, bt, .error m⟩) = .error (.badJson m)) ∧
    (∀ (config : Option ProviderConfig) (e : String),
      strFalsy (config.bind ProviderConfig.apiKey) = false →
      getGeminiEmbedding config (.error e) = .error (.transport e)) ∧
    (∀ (config : Option ProviderConfig) (st : Nat) (bt : String)
        (js : Except String GeminiPayload),
      strFalsy (config.bind ProviderConfig.apiKey) = false →
      ∃ pe, getGeminiEmbedding config (.ok ⟨false, st, bt, js⟩) = .error pe) ∧
    (∀ (config : Option ProviderConfig) (st : Nat) (bt : String) (m : String),
      strFalsy (config.bind ProviderConfig.apiKey) = false →
      getGeminiEmbedding config (.ok ⟨true, st, bt, .error m⟩) = .error (.badJson m)) ∧
    (∀ s : String, getOllamaEmbedding (.ok ⟨true, 200, s, .ok ⟨none⟩⟩) = .ok none) := by
  refine ⟨fun e => rfl, fun st bt js => rfl, fun st bt m => rfl, ?_, ?_, ?_, fun s => rfl⟩
  · intro config e hkey
    unfold getGeminiEmbedding
    rw [if_neg (bool_ne_true hkey)]
  · intro config st bt js hkey
    unfold getGeminiEmbedding
    rw [if_neg (bool_ne_true hkey)]
    cases js with
    | error m => exact ⟨.badJson m, rfl⟩
    | ok data =>
      obtain ⟨derr, demb⟩ := data
      cases derr with
      | none => exact ⟨.typeError, rfl⟩
      | some info => exact ⟨.status st info.message, rfl⟩
  · intro config st bt m hkey
    unfold getGeminiEmbedding
    rw [if_neg (bool_ne_true hkey)]
    rfl

/-- C9 counterexample: a successful (ok, 200) local-provider response whose
JSON parses but lacks the embedding field produces the non-error result
Except.ok none, not a ProviderError. -/
theorem ollama_missing_field_counterexample :
    getOllamaEmbedding (.ok ⟨true, 200, "{}", .ok ⟨none⟩⟩) = .ok none ∧
    ∀ pe, getOllamaEmbedding (.ok ⟨true, 200, "{}", .ok ⟨none⟩⟩) ≠ .error pe := by
  refine ⟨rfl, ?_⟩
  intro pe h
  exact Except.noConfusion h

theorem provider_embed_error_conditions_witness :
    getGeminiEmbedding (some ⟨none, none, some "key"⟩) (.error "net down") =
      .error (.transport "net down") :=
  provider_embed_error_conditions.2.2.2.1 (some ⟨none, none, some "key"⟩) "net down" rfl

theorem mapSet_length_le (c : List (String × List ℚ)) (k : String) (v : List ℚ) :
    (mapSet c k v).length ≤ c.length + 1 := by
  unfold mapSet
  split
  · rw [List.length_map]
    exact Nat.le_succ _
  · rw [List.length_append]
    exact le_refl _

theorem cacheSet_length_le (maxSize : Nat) (hmax : 1 ≤ maxSize)
    (c : List (String × List ℚ)) (k : String) (v : List ℚ)
    (hc : c.length ≤ maxSize) : (cacheSet maxSize c k v).length ≤ maxSize := by
  unfold cacheSet
  split
  · next hle =>
    have htail : c.tail.length = c.length - 1 := List.length_tail c
    have h1 : (mapSet c.tail k v).length ≤ c.tail.length + 1 := mapSet_length_le c.tail k v
    have h2 : c.tail.length + 1 ≤ maxSize := by omega
    exact le_trans h1 h2
  · next hlt =>
    have h1 : (mapSet c k v).length ≤ c.length + 1 := mapSet_length_le c k v
    have h2 : c.length + 1 ≤ maxSize := by omega
    exact le_trans h1 h2

theorem cacheFold_length_le (maxSize : Nat) (hmax : 1 ≤ maxSize) :
    ∀ (puts : List (String × List ℚ)) (c : List (String × List ℚ)),
      c.length ≤ maxSize →
      (puts.foldl (fun acc p => cacheSet maxSize acc p.1 p.2) c).length ≤ maxSize := by
  intro puts
  induction puts with
  | nil => intro c hc; exact hc
  | cons p ps ih =>
    intro c hc
    exact ih _ (cacheSet_length_le maxSize hmax c p.1 p.2 hc)

/-- C4 (amended): provided the configured maximum is at least 1, the cache size
never exceeds it over any sequence of set operations from the empty cache; a
set performed at capacity evicts exactly the oldest-inserted entry (the head)
before the new entry is added; and neither get (a pure lookup) nor an
overwriting set refreshes recency (the key order is unchanged by overwrite).
With maxEntries = 0 the bound fails: eviction on the empty cache is a no-op and
the subsequent insertion leaves one entry (see the counterexample). -/
theorem cache_bound_and_fifo (maxSize : Nat) (hmax : 1 ≤ maxSize) :
    (∀ puts : List (String × List ℚ), (cacheRun maxSize puts).length ≤ maxSize) ∧
    (∀ (e : String × List ℚ) (rest : List (String × List ℚ)) (k : String) (v : List ℚ),
      (e :: rest).length = maxSize →
      cacheSet maxSize (e :: rest) k v = mapSet rest k v) ∧
    (∀ (c : List (String × List ℚ)) (k : String) (v : List ℚ),
      c.any (fun p => decide (p.1 = k)) = true →
      (mapSet c k v).map Prod.fst = c.map Prod.fst) := by
  refine ⟨?_, ?_, ?_⟩
  · intro puts
    exact cacheFold_length_le maxSize hmax puts [] (by simp)
  · intro e rest k v hlen
    unfold cacheSet
    rw [if_pos (le_of_eq hlen.symm)]
    rfl
  · intro c k v hany
    unfold mapSet
    rw [if_pos hany, List.map_map]
    have hfun : (Prod.fst ∘ fun p : String × List ℚ =>
        if p.1 = k then (k, v) else p) = Prod.fst := by
      funext p
      by_cases h : p.1 = k
      · simp [Function.comp, h]
      · simp [Function.comp, h]
    rw [hfun]

/-- C4 counterexample: with a configured maximum of 0, one put leaves one entry
in the cache, exceeding the bound (deleting the first key of an empty map is a
no-op, then the new entry is inserted). -/
theorem cache_bound_counterexample :
    (cacheRun 0 [("a", [1])]).length = 1 ∧
    ¬((cacheRun 0 [("a", [1])]).length ≤ 0) := by
  have h1 : (cacheRun 0 [("a", ([1] : List ℚ))]).length = 1 := rfl
  refine ⟨h1, ?_⟩
  rw [h1]
  omega

theorem cache_bound_and_fifo_witness :
    (cacheRun 2 [("a", [1]), ("b", [2]), ("c", [3])]).length ≤ 2 :=
  (cache_bound_and_fifo 2 (by omega)).1 [("a", [1]), ("b", [2]), ("c", [3])]

/-- C10: a set while the cache holds exactly maxSize entries evicts the
oldest-inserted entry even when the key is already present; overwriting an
existing non-oldest key at capacity therefore evicts the (unrelated) oldest
entry and leaves the cache at maxSize - 1 entries, strictly below capacity,
with the written key still present. -/
theorem cacheSet_overwrite_at_capacity (maxSize : Nat) (e : String × List ℚ)
    (rest : List (String × List ℚ)) (k : String) (v : List ℚ)
    (hnodup : ((e :: rest).map Prod.fst).Nodup)
    (hlen : (e :: rest).length = maxSize)
    (hk : rest.any (fun p => decide (p.1 = k)) = true) :
    cacheSet maxSize (e :: rest) k v = mapSet rest k v ∧
    (cacheSet maxSize (e :: rest) k v).length = maxSize - 1 ∧
    maxSize - 1 < maxSize ∧
    (∀ p ∈ cacheSet maxSize (e :: rest) k v, p.1 ≠ e.1) ∧
    (cacheSet maxSize (e :: rest) k v).any (fun p => decide (p.1 = k)) = true := by
  have heq : cacheSet maxSize (e :: rest) k v = mapSet rest k v := by
    unfold cacheSet
    rw [if_pos (le_of_eq hlen.symm)]
    rfl
  have hmapform : mapSet rest k v =
      rest.map (fun p => if p.1 = k then (k, v) else p) := by
    unfold mapSet
    rw [if_pos hk]
  have hknotold : k ≠ e.1 := by
    obtain ⟨q, hqmem, hqk⟩ := List.any_eq_true.mp hk
    rw [decide_eq_true_eq] at hqk
    have henotin : e.1 ∉ rest.map Prod.fst := (List.nodup_cons.mp hnodup).1
    intro hke
    exact henotin (hke ▸ hqk ▸ List.mem_map_of_mem Prod.fst hqmem)
  have hrestlen : rest.length = maxSize - 1 := by
    have : rest.length + 1 = maxSize := by simpa using hlen
    omega
  refine ⟨heq, ?_, ?_, ?_, ?_⟩
  · rw [heq, hmapform, List.length_map, hrestlen]
  · have hpos : rest.length + 1 = maxSize := by simpa using hlen
    omega
  · intro p hp
    rw [heq, hmapform] at hp
    obtain ⟨q, hqmem, hqp⟩ := List.mem_map.mp hp
    have hqne : q.1 ≠ e.1 := by
      intro hq
      exact (List.nodup_cons.mp hnodup).1 (hq ▸ List.mem_map_of_mem Prod.fst hqmem)
    by_cases hqk : q.1 = k
    · rw [if_pos hqk] at hqp
      rw [← hqp]
      exact hknotold
    · rw [if_neg hqk] at hqp
      rw [← hqp]
      exact hqne
  · rw [heq, hmapform]
    obtain ⟨q, hqmem, hqk⟩ := List.any_eq_true.mp hk
    rw [decide_eq_true_eq] at hqk
    refine List.any_eq_true.mpr ⟨(k, v), ?_, by simp⟩
    refine List.mem_map.mpr ⟨q, hqmem, ?_⟩
    rw [if_pos hqk]

theorem cacheSet_overwrite_at_capacity_witness :
    cacheSet 2 [("a", [1]), ("b", [2])] "b" [9] = mapSet [("b", [2])] "b" [9] ∧
    (cacheSet 2 [("a", [1]), ("b", [2])] "b" [9]).length = 2 - 1 ∧
    2 - 1 < 2 ∧
    (∀ p ∈ cacheSet 2 [("a", [1]), ("b", [2])] "b" [9], p.1 ≠ ("a", ([1] : List ℚ)).1) ∧
    (cacheSet 2 [("a", [1]), ("b", [2])] "b" [9]).any (fun p => decide (p.1 = "b")) = true :=
  cacheSet_overwrite_at_capacity 2 ("a", [1]) [("b", [2])] "b" [9]
    (by simp) rfl (by simp)

theorem throttle_ts_length (maxR : Nat) (W : ℤ) (ts0 adm0 : List ℤ)
    (h : ThrottleTrace maxR W ts0 adm0) : ts0.length ≤ maxR := by
  induction h with
  | nil => exact Nat.zero_le maxR
  | @grant ts adm now h hmono hguard ih =>
    rw [List.length_append, List.length_singleton]
    omega
  | @blocked ts adm now h hmono hguard ih =>
    exact le_trans (List.filter_sublist _).length_le ih

/-- The retained timestamp list undercounts no admission still inside the
current trailing window: every admission within the window of any time n at or
after all admissions is still present in the state. -/
theorem throttle_inv (maxR : Nat) (W : ℤ) (ts0 adm0 : List ℤ)
    (h : ThrottleTrace maxR W ts0 adm0) :
    ∀ n : ℤ, (∀ a ∈ adm0, a ≤ n) →
      (adm0.filter (fun x => decide (n - x < W))).length ≤
        (ts0.filter (fun x => decide (n - x < W))).length := by
  induction h with
  | nil => intro n _; exact le_refl 0
  | @grant ts adm now h hmono hguard ih =>
    intro n hn
    have hnow : now ≤ n := hn now (List.mem_append_right adm (List.mem_singleton_self now))
    rw [List.filter_append, List.filter_append, List.length_append, List.length_append]
    have hmid : ((ts.filter (fun x => decide (now - x < W))).filter
        (fun x => decide (n - x < W))).length =
        (ts.filter (fun x => decide (n - x < W))).length := by
      rw [List.filter_filter]
      refine congrArg List.length (List.filter_congr ?_)
      intro a _
      rcases Decidable.em (n - a < W) with hcase | hcase
      · have h1 : now - a < W := by omega
        simp [hcase, h1]
      · simp [hcase]
    have hadm : (adm.filter (fun x => decide (n - x < W))).length ≤
        (ts.filter (fun x => decide (n - x < W))).length :=
      ih n (fun a ha => hn a (List.mem_append_left [now] ha))
    omega
  | @blocked ts adm now h hmono hguard ih =>
    intro n hn
    have hts : ts.length ≤ maxR := throttle_ts_length maxR W ts adm h
    have hsub : (ts.filter (fun x => decide (now - x < W))).Sublist ts :=
      List.filter_sublist ts
    have heq : ts.filter (fun x => decide (now - x < W)) = ts :=
      hsub.eq_of_length (le_antisymm hsub.length_le (le_trans hts hguard))
    rw [heq]
    exact ih n hn

/-- C5: over any trailing window (n - W, n], the number of admissions granted
by a sequential run of throttle whose timestamps fall inside the window never
exceeds maxRequests. -/
theorem throttle_window_bound (maxR : Nat) (W : ℤ) (ts0 adm0 : List ℤ)
    (h : ThrottleTrace maxR W ts0 adm0) :
    ∀ n : ℤ, (adm0.filter (fun x => decide (n - W < x ∧ x ≤ n))).length ≤ maxR := by
  induction h with
  | nil => intro n; exact Nat.zero_le maxR
  | @grant ts adm now h hmono hguard ih =>
    intro n
    by_cases hn : now ≤ n
    · have hmono' : ∀ a ∈ adm ++ [now], a ≤ n := by
        intro a ha
        rcases List.mem_append.mp ha with ha' | ha'
        · exact le_trans (hmono a ha') hn
        · rw [List.mem_singleton.mp ha']
          exact hn
      have hinv := throttle_inv maxR W _ _
        (ThrottleTrace.grant now h hmono hguard) n hmono'
      have hcong : (adm ++ [now]).filter (fun x => decide (n - W < x ∧ x ≤ n)) =
          (adm ++ [now]).filter (fun x => decide (n - x < W)) := by
        refine List.filter_congr ?_
        intro a ha
        have han : a ≤ n := hmono' a ha
        refine decide_eq_decide.mpr ?_
        omega
      have hts : ((ts.filter (fun x => decide (now - x < W)) ++ [now]).filter
          (fun x => decide (n - x < W))).length ≤ maxR := by
        rw [List.filter_append, List.length_append]
        have h1 : ((ts.filter (fun x => decide (now - x < W))).filter
            (fun x => decide (n - x < W))).length ≤
            (ts.filter (fun x => decide (now - x < W))).length :=
          (List.filter_sublist _).length_le
        have h2 : (([now] : List ℤ).filter (fun x => decide (n - x < W))).length ≤ 1 := by
          rcases Decidable.em (n - now < W) with hc | hc
          · simp [List.filter_cons, hc]
          · simp [List.filter_cons, hc]
        omega
      rw [hcong]
      exact le_trans hinv hts
    · have hnowf : (([now] : List ℤ).filter
          (fun x => decide (n - W < x ∧ x ≤ n))) = [] := by
        have hno : ¬(n - W < now ∧ now ≤ n) := fun hc => hn hc.2
        simp [List.filter_cons, hno]
      rw [List.filter_append, hnowf, List.append_nil]
      exact ih n
  | @blocked ts adm now h hmono hguard ih =>
    intro n
    exact ih n

/-- C5 witness: a one-admission trace with maxRequests = 1 and window 10;
the window ending at time 5 contains at most one admission. -/
theorem throttle_window_bound_witness :
    ((([] : List ℤ) ++ [0]).filter (fun x => decide ((5 : ℤ) - 10 < x ∧ x ≤ 5))).length ≤ 1 :=
  throttle_window_bound 1 10 _ _
    (ThrottleTrace.grant 0 ThrottleTrace.nil
      (fun a ha => absurd ha (List.not_mem_nil a)) (by simp)) 5
